import Mathlib

/-!
Shallow embedding of the manifold trading bot's core (the `Bot` class in
`src/bot.py`, the staking math in `src/calculations.py`, and the position
database in `src/trade_database.py`), together with theorems checking the
natural-language specification against it.

Python floats are modelled as rationals (`ℚ`); Python strings as `String`;
the Python `set` of subscribed topics as a `Finset String`; the SQLite
positions table as a list of rows keyed by `market_id`.
-/

namespace ManifoldBot

/-! ## Staking calculator (`src/calculations.py`) -/

/-- `kelly_fraction` from `src/calculations.py`: the (fractional) Kelly
fraction of bankroll to wager.  Positive means buy YES, negative buy NO,
zero means no bet. -/
def kelly_fraction (predicted_probability current_market_probability alpha : ℚ) : ℚ :=
  let p := predicted_probability
  let c := current_market_probability
  if p > c then
    alpha * ((p - c) / (1 - c))
  else if p < c then
    -(alpha * ((c - p) / c))
  else
    0

/-- `kelly_bet` from `src/calculations.py`: the amount to bet and the side
to bet on ("YES" or "NO"). -/
def kelly_bet (predicted_probability current_market_probability alpha bankroll : ℚ)
    (max_bet_amount : ℚ) : ℚ × String :=
  let f := kelly_fraction predicted_probability current_market_probability alpha
  let bet := bankroll * f
  if bet > 0 then
    (min bet max_bet_amount, "YES")
  else if bet < 0 then
    (min (-bet) max_bet_amount, "NO")
  else
    (0, "NO")

end ManifoldBot

namespace ManifoldBot

/-! ## Position database (`src/trade_database.py`)

The SQLite table `positions (market_id TEXT PRIMARY KEY, outcome, shares,
entry_time, last_updated)` is modelled as a list of rows; `INSERT OR
REPLACE` on the primary key replaces the matching row in place when one
exists and appends otherwise.  `datetime.now()` is passed in explicitly as
the `now` argument. -/

/-- A row of the `positions` table (= `SavedPosition` in
`src/trade_database.py`).  Timestamps are modelled as integers. -/
structure SavedPosition where
  market_id : String
  outcome : String
  shares : ℚ
  entry_time : ℤ
  last_updated : ℤ
deriving DecidableEq, Repr

/-- `MarketPositionDB.add_position_limited`: add or update a market
position (`INSERT OR REPLACE` keyed on `market_id`; `entry_time` is the
bet's `last_bet_time`, `last_updated` is `datetime.now()`). -/
def add_position_limited (db : List SavedPosition) (market_id max_shares_outcome : String)
    (total_shares : ℚ) (last_bet_time now : ℤ) : List SavedPosition :=
  let row : SavedPosition := ⟨market_id, max_shares_outcome, total_shares, last_bet_time, now⟩
  if db.any (fun p => p.market_id == market_id) then
    db.map (fun p => if p.market_id == market_id then row else p)
  else
    db ++ [row]

/-- `MarketPositionDB.remove_position`: `DELETE FROM positions WHERE
market_id = ?`. -/
def remove_position (db : List SavedPosition) (market_id : String) : List SavedPosition :=
  db.filter (fun p => !(p.market_id == market_id))

/-- `MarketPositionDB.get_position`: `SELECT * FROM positions WHERE
market_id = ?`, `None` when no row matches. -/
def get_position (db : List SavedPosition) (market_id : String) : Option SavedPosition :=
  db.find? (fun p => p.market_id == market_id)

/-- `MarketPositionDB.get_all_positions`: `SELECT * FROM positions`. -/
def get_all_positions (db : List SavedPosition) : List SavedPosition :=
  db

/-- The arguments of one `add_position_limited` call, used to state the
round-trip property over a batch of upserts. -/
structure UpsertReq where
  market_id : String
  outcome : String
  shares : ℚ
  last_bet_time : ℤ
  now : ℤ
deriving DecidableEq, Repr

/-- Apply a batch of upserts to the database, in order. -/
def apply_upserts (db : List SavedPosition) (reqs : List UpsertReq) : List SavedPosition :=
  reqs.foldl
    (fun d r => add_position_limited d r.market_id r.outcome r.shares r.last_bet_time r.now)
    db

end ManifoldBot

namespace ManifoldBot

/-! ## Bot state and the session manager (`src/bot.py`)

The mutable fields of the `Bot` instance that the websocket handlers touch
are collected in `BotState`.  `self.ws and self.ws.sock and
self.ws.sock.connected` is modelled as the boolean `connected`; the wire
messages passed to `self.ws.send` are recorded in `sent`; the HTTP sell
calls posted by `handle_new_bet` are recorded in `sellCalls`. -/

/-- One JSON frame passed to `ws.send` (a subscribe/unsubscribe/ping
message).  Ping frames carry no topic list; we record `[]` for them. -/
structure WireMsg where
  mtype : String
  txid : ℕ
  topics : List String
deriving DecidableEq, Repr

/-- The `Bot` fields manipulated by the websocket handlers. -/
structure BotState where
  subscribed_topics : Finset String
  txid : ℕ
  sent : List WireMsg
  connected : Bool
  db : List SavedPosition
  sellCalls : List String
deriving DecidableEq

/-- The freshly-constructed state: `self.txid = 0`, `self.ws = None`,
`self.subscribed_topics = set()`, with database contents `db`. -/
def initState (db : List SavedPosition) : BotState :=
  { subscribed_topics := ∅, txid := 0, sent := [], connected := false,
    db := db, sellCalls := [] }

/-- The topic-filtering loop of `Bot.subscribe_to_topics`: walk the given
topics, keeping those not yet subscribed (resp. currently subscribed, for
unsubscribe) while updating the subscription set as each one is kept. -/
def processTopics (unsubscribe : Bool) (topics : List String)
    (subs : Finset String) : List String × Finset String :=
  topics.foldl
    (fun acc t =>
      if unsubscribe then
        if t ∈ acc.2 then (acc.1 ++ [t], acc.2.erase t) else acc
      else
        if t ∈ acc.2 then acc else (acc.1 ++ [t], insert t acc.2))
    ([], subs)

/-- `Bot.subscribe_to_topics`: when the socket is connected, filter the
topics against the current subscription set (mutating it), and if any
remain send one subscribe/unsubscribe frame carrying the current `txid`,
then increment `txid`. -/
def subscribe_to_topics (topics : List String) (unsubscribe : Bool)
    (s : BotState) : BotState :=
  if s.connected then
    let r := processTopics unsubscribe topics s.subscribed_topics
    if r.1.isEmpty then
      { s with subscribed_topics := r.2 }
    else
      { s with
        subscribed_topics := r.2,
        sent := s.sent ++ [⟨if unsubscribe then "unsubscribe" else "subscribe", s.txid, r.1⟩],
        txid := s.txid + 1 }
  else s

/-- One iteration of the send part of `Bot.ping_thread`: while connected,
send a frame of shape ping with the current `txid` and increment `txid`. -/
def ping_once (s : BotState) : BotState :=
  if s.connected then
    { s with sent := s.sent ++ [⟨"ping", s.txid, []⟩], txid := s.txid + 1 }
  else s

/-- `Bot.on_close`: clear the subscription set, drop the socket
(`self.ws = None`, modelled as `connected := false`) and reset
`self.txid = 0`.  (The reconnection it may then start is modelled
separately by `attempt_reconnection`.) -/
def on_close (s : BotState) : BotState :=
  { s with subscribed_topics := ∅, connected := false, txid := 0 }

end ManifoldBot

namespace ManifoldBot

/-! ## Exit monitor and trade pipeline (`src/bot.py`) -/

/-- `Bot.handle_new_bet`: on a new-bet notification for `market_id`, look
up the position; if present, the auto-sell threshold is configured and the
held share count is positive, fetch the current probability
(`response.json().get("prob", 0)`, modelled by `fetchProb.getD 0`),
convert it to a payout fraction for the held side, and when that fraction
reaches the threshold post one sell call; only when the sell responds with
status 200 is the position removed and the bet topic unsubscribed. -/
def handle_new_bet (auto_sell_threshold : Option ℚ) (fetchProb : Option ℚ)
    (sellStatus : ℕ) (market_id : String) (s : BotState) : BotState :=
  match get_position s.db market_id with
  | none => s
  | some position =>
    match auto_sell_threshold with
    | none => s
    | some threshold =>
      let probability := fetchProb.getD 0
      if position.shares > 0 then
        let payout_percentage :=
          if position.outcome == "YES" then probability else 1 - probability
        if payout_percentage ≥ threshold then
          let s1 := { s with sellCalls := s.sellCalls ++ [market_id] }
          if sellStatus == 200 then
            let s2 := { s1 with db := remove_position s1.db market_id }
            subscribe_to_topics ["contract/" ++ market_id ++ "/new-bet"] true s2
          else s1
        else s
      else s

/-- The fields of a market snapshot that `Bot.trade_on_market` and
`Bot.can_trade` consult (a fragment of `FullMarket` in
`src/manifold/types.py`). -/
structure FullMarket where
  id : String
  outcomeType : String
  probability : ℚ
  groupSlugs : List String
deriving DecidableEq, Repr

/-- The configuration fields of the `Bot` instance (set once in
`Bot.__init__` and read by the handlers). -/
structure BotConfig where
  exclude_groups : List String
  max_trade_amount : ℚ
  kelly_alpha : ℚ
  expires_millis_after : Option ℤ
  dry_run : Bool
  auto_sell_threshold : Option ℚ
deriving DecidableEq

/-- `Bot.can_trade`: reject when an excluded group matches one of the
market's group slugs, or when the bankroll is below `max_trade_amount`. -/
def can_trade (cfg : BotConfig) (market : FullMarket) (bankroll : ℚ) : Bool :=
  if cfg.exclude_groups.any (fun g => market.groupSlugs.contains g) then false
  else if bankroll < cfg.max_trade_amount then false
  else true

/-- The POST body built by `place_limit_order` in `src/manifold/utils.py`
(amount, contract id, limit probability, outcome, optional expiry,
dry-run flag). -/
structure LimitOrderReq where
  contractId : String
  limitProb : ℚ
  amount : ℚ
  outcome : String
  expiresMillisAfter : Option ℤ
  dryRun : Bool
deriving DecidableEq, Repr

/-- `Bot.trade_on_market`: skip non-binary markets and markets failing
`can_trade`; otherwise size the bet with `kelly_bet`, remap an exactly-zero
probability estimate to `0.01`, and when the computed amount is positive
place the limit order, subscribe to the market's new-bet topic and record
the position.  The oracle's output is the `estimate` argument; the shares
and creation time of the placed bet (returned by the remote API) are the
`betShares` and `betCreatedTime` arguments.  Returns the updated state and
the submitted order, if any. -/
def trade_on_market (cfg : BotConfig) (market : FullMarket) (bankroll estimate : ℚ)
    (betShares : ℚ) (betCreatedTime now : ℤ) (s : BotState) :
    BotState × Option LimitOrderReq :=
  if !(market.outcomeType == "BINARY") then (s, none)
  else if !(can_trade cfg market bankroll) then (s, none)
  else
    let bet := kelly_bet estimate market.probability cfg.kelly_alpha bankroll
      cfg.max_trade_amount
    let probability_estimate := if estimate == 0 then (1/100 : ℚ) else estimate
    if bet.1 > 0 then
      let order : LimitOrderReq :=
        ⟨market.id, probability_estimate, bet.1, bet.2, cfg.expires_millis_after, cfg.dry_run⟩
      let s1 := subscribe_to_topics ["contract/" ++ market.id ++ "/new-bet"] false s
      let s2 := { s1 with
        db := add_position_limited s1.db market.id bet.2 betShares betCreatedTime now }
      (s2, some order)
    else (s, none)

/-- `Bot.on_open`: mark the connection established, subscribe to the
new-contract feed, and (`Bot.get_my_positions`) subscribe to the new-bet
topic of every position saved in the database. -/
def on_open (s : BotState) : BotState :=
  let s1 := { s with connected := true }
  let s2 := subscribe_to_topics ["global/new-contract"] false s1
  (get_all_positions s1.db).foldl
    (fun st p => subscribe_to_topics ["contract/" ++ p.market_id ++ "/new-bet"] false st)
    s2

/-- The events driving the `Bot` websocket handlers during one run: direct
subscribe/unsubscribe calls, one ping-thread iteration, connection close,
connection open, a new-bet broadcast (with the probability fetched for it
and the status code of the sell call, if one is made), and a new-market
broadcast (with the fetched market, bankroll, oracle estimate and the
remote bet confirmation). -/
inductive BotEv where
  | sub (topics : List String)
  | unsub (topics : List String)
  | ping
  | close
  | wsopen
  | newBet (market_id : String) (fetchProb : Option ℚ) (sellStatus : ℕ)
  | newMarket (market : FullMarket) (bankroll estimate betShares : ℚ)
      (betCreatedTime now : ℤ)
deriving DecidableEq

/-- Dispatch one event to the corresponding handler. -/
def step (cfg : BotConfig) (s : BotState) (e : BotEv) : BotState :=
  match e with
  | .sub ts => subscribe_to_topics ts false s
  | .unsub ts => subscribe_to_topics ts true s
  | .ping => ping_once s
  | .close => on_close s
  | .wsopen => on_open s
  | .newBet mid fp st => handle_new_bet cfg.auto_sell_threshold fp st mid s
  | .newMarket m bank est sh t now => (trade_on_market cfg m bank est sh t now s).1

/-- Run a sequence of events from a state. -/
def run (cfg : BotConfig) (s : BotState) (es : List BotEv) : BotState :=
  es.foldl (step cfg) s

/-- The send-log invariant that holds as long as no close event occurs:
the txids recorded in the send log are strictly increasing, and all of
them are below the current `txid` counter. -/
def SentInv (s : BotState) : Prop :=
  (s.sent.map WireMsg.txid).Pairwise (· < ·) ∧ ∀ m ∈ s.sent, m.txid < s.txid

end ManifoldBot

namespace ManifoldBot

/-! ## Reconnection (`Bot.attempt_reconnection`, `src/bot.py` lines 288-351)

The `while` loop of `attempt_reconnection` increments
`reconnect_attempts`, sleeps an exponentially backed-off, jittered delay,
and tries to reconnect; it returns early on success (resetting the
counter), and after the loop sets `is_running = False` when the attempt
bound was reached.  The loop is translated by structural recursion on the
number of remaining attempts `max_reconnect_attempts -
reconnect_attempts`; the attempt counter at each step is recovered as
`maxA - remaining`.  The success of each attempt and the jitter drawn for
it are supplied by the oracles `success` and `jitter` (indexed by the
attempt number); `is_running` is taken to stay true while the loop runs
(no external shutdown). -/

/-- The un-jittered backoff delay of attempt `n` (1-based):
`min(base_reconnect_delay * 2**(attempts - 1), 300)`. -/
def reconnect_delay (base : ℚ) (n : ℕ) : ℚ :=
  min (base * 2 ^ (n - 1)) 300

/-- The total delay slept before attempt `n`: the backoff delay plus
`random.uniform(0.1, 0.3) * delay`, with the uniform draw supplied by the
`jitter` oracle. -/
def attempt_total_delay (base : ℚ) (jitter : ℕ → ℚ) (n : ℕ) : ℚ :=
  reconnect_delay base n + jitter n * reconnect_delay base n

/-- Result of a reconnection sequence: the final `is_running` flag, the
final `reconnect_attempts` counter, and the delays slept (one per attempt
actually issued). -/
structure ReconnResult where
  is_running : Bool
  reconnect_attempts : ℕ
  delays : List ℚ
deriving DecidableEq, Repr

/-- The `while` loop of `attempt_reconnection`, by recursion on the
remaining attempts (`attempts = maxA - remaining`): with no attempts left
the post-loop check fires (`is_running = False`, counter at the bound);
otherwise attempt `maxA - remaining + 1` sleeps its delay and either
succeeds (counter reset to 0, loop exits) or the loop continues. -/
def reconnect_go (success : ℕ → Bool) (jitter : ℕ → ℚ) (base : ℚ) (maxA : ℕ) :
    (remaining : ℕ) → ReconnResult
  | 0 => ⟨false, maxA, []⟩
  | remaining + 1 =>
    let a := maxA - (remaining + 1) + 1
    let d := attempt_total_delay base jitter a
    if success a then
      ⟨true, 0, [d]⟩
    else
      let rest := reconnect_go success jitter base maxA remaining
      ⟨rest.is_running, rest.reconnect_attempts, d :: rest.delays⟩

/-- `Bot.attempt_reconnection` entered with counter `attempts`: if the
bound is already reached the loop body never runs and the post-loop check
sets `is_running = False`; otherwise run the loop. -/
def attempt_reconnection (success : ℕ → Bool) (jitter : ℕ → ℚ) (base : ℚ)
    (maxA attempts : ℕ) : ReconnResult :=
  if attempts < maxA then reconnect_go success jitter base maxA (maxA - attempts)
  else ⟨false, attempts, []⟩

/-- The reconnection guard in `Bot.on_close`: a reconnection sequence is
started only when `self.is_running and not self.is_reconnecting`. -/
def on_close_reconnect (success : ℕ → Bool) (jitter : ℕ → ℚ) (base : ℚ)
    (maxA : ℕ) (is_running is_reconnecting : Bool) (attempts : ℕ) : ReconnResult :=
  if is_running && !is_reconnecting then
    attempt_reconnection success jitter base maxA attempts
  else ⟨is_running, attempts, []⟩

end ManifoldBot

namespace ManifoldBot

/-! ## Bot construction (`Bot.__init__`, `src/bot.py` lines 22-62) -/

/-- A constructed database handle (`MarketPositionDB(db_path)`). -/
structure DBHandle where
  db_path : String
deriving DecidableEq, Repr

/-- The database setup in `Bot.__init__`:
`self.db = MarketPositionDB(db_path) if db_path else None` followed
unconditionally by `self.db.init_db()`.  When `db_path` is `None` (or
falsy, i.e. the empty string) `self.db` is `None` and the `init_db` call
raises `AttributeError`; the raised exception is modelled as `.error`. -/
def bot_init_db (db_path : Option String) : Except String DBHandle :=
  let db : Option DBHandle :=
    match db_path with
    | some p => if p ≠ "" then some ⟨p⟩ else none
    | none => none
  match db with
  | some d => Except.ok d
  | none => Except.error "AttributeError: NoneType object has no attribute init_db"

end ManifoldBot

namespace ManifoldBot

/-! ## Theorems for the staking calculator -/

/-- C1 (counterexample): the claim asserts that for bankroll `B ≥ 0` and
`p > c` the returned side is YES; but at `p = 3/5 > c = 2/5`, `alpha = 1`,
`B = 0`, `M = 100` (all in the claim's stated domain) the code returns side
"NO" (with amount 0), because `bet = B * f = 0` falls through to the
no-bet branch. -/
theorem kelly_bet_zero_bankroll_side :
    (0:ℚ) < 3/5 ∧ (3/5:ℚ) < 1 ∧ (0:ℚ) < 2/5 ∧ (2/5:ℚ) < 1 ∧
    (0:ℚ) < 1 ∧ (1:ℚ) ≤ 1 ∧ (0:ℚ) ≤ 0 ∧ (0:ℚ) ≤ 100 ∧ (2/5:ℚ) < 3/5 ∧
    kelly_bet (3/5) (2/5) 1 0 100 = (0, "NO") := by
  refine ⟨by norm_num, by norm_num, by norm_num, by norm_num, by norm_num,
    le_refl _, le_refl _, by norm_num, by norm_num, ?_⟩
  norm_num [kelly_bet, kelly_fraction]

/-- C1 (amended): for `p, c ∈ (0,1)`, `alpha ∈ (0,1]`, bankroll `B > 0`
and cap `M ≥ 0`: `p = c` gives amount `0`; `p > c` gives side YES with
amount `min (alpha*B*(p-c)/(1-c)) M`; `p < c` gives side NO with amount
`min (alpha*B*(c-p)/c) M`; and the amount is always in `[0, min B M]`.
(For `B = 0` the amount is `0` but the reported side is "NO" even when
`p > c`.) -/
theorem kelly_bet_spec (p c alpha B M : ℚ)
    (hp0 : 0 < p) (hp1 : p < 1) (hc0 : 0 < c) (hc1 : c < 1)
    (ha0 : 0 < alpha) (ha1 : alpha ≤ 1) (hB : 0 < B) (hM : 0 ≤ M) :
    (p = c → (kelly_bet p c alpha B M).1 = 0) ∧
    (c < p → kelly_bet p c alpha B M = (min (alpha * B * ((p - c) / (1 - c))) M, "YES")) ∧
    (p < c → kelly_bet p c alpha B M = (min (alpha * B * ((c - p) / c)) M, "NO")) ∧
    0 ≤ (kelly_bet p c alpha B M).1 ∧ (kelly_bet p c alpha B M).1 ≤ min B M := by
  have h1c : 0 < 1 - c := by linarith
  constructor
  · intro hpc
    simp [kelly_bet, kelly_fraction, hpc]
  constructor
  · intro hcp
    have hf : 0 < alpha * ((p - c) / (1 - c)) := by
      apply mul_pos ha0
      exact div_pos (by linarith) h1c
    have hbet : 0 < B * (alpha * ((p - c) / (1 - c))) := mul_pos hB hf
    simp only [kelly_bet, kelly_fraction, if_pos hcp, if_pos hbet]
    have harith : B * (alpha * ((p - c) / (1 - c))) = alpha * B * ((p - c) / (1 - c)) := by ring
    rw [harith]
  constructor
  · intro hpc
    have hf : 0 < alpha * ((c - p) / c) := by
      apply mul_pos ha0
      exact div_pos (by linarith) hc0
    have hnotgt : ¬ (p > c) := by linarith
    have hbet : B * -(alpha * ((c - p) / c)) < 0 := by
      have := mul_pos hB hf
      nlinarith
    have hbetnotpos : ¬ (B * -(alpha * ((c - p) / c)) > 0) := by linarith
    simp only [kelly_bet, kelly_fraction, if_neg hnotgt, if_pos hpc,
      if_neg hbetnotpos, if_pos hbet]
    have harith : -(B * -(alpha * ((c - p) / c))) = alpha * B * ((c - p) / c) := by ring
    rw [harith]
  · -- bounds: 0 ≤ amount ≤ min B M, by cases on the ordering of p and c
    rcases lt_trichotomy p c with hpc | hpc | hpc
    · have hf : 0 < alpha * ((c - p) / c) := by
        apply mul_pos ha0
        exact div_pos (by linarith) hc0
      have hnotgt : ¬ (p > c) := by linarith
      have hbet : B * -(alpha * ((c - p) / c)) < 0 := by
        have := mul_pos hB hf
        nlinarith
      have hbetnotpos : ¬ (B * -(alpha * ((c - p) / c)) > 0) := by linarith
      simp only [kelly_bet, kelly_fraction, if_neg hnotgt, if_pos hpc,
        if_neg hbetnotpos, if_pos hbet]
      have hfrac : (c - p) / c < 1 := by
        rw [div_lt_one hc0]; linarith
      have hfle : alpha * ((c - p) / c) ≤ 1 := by
        calc alpha * ((c - p) / c) ≤ 1 * ((c - p) / c) := by
              apply mul_le_mul_of_nonneg_right ha1 (le_of_lt (div_pos (by linarith) hc0))
          _ = (c - p) / c := one_mul _
          _ ≤ 1 := le_of_lt hfrac
      have hbetleB : -(B * -(alpha * ((c - p) / c))) ≤ B := by
        have : B * (alpha * ((c - p) / c)) ≤ B * 1 := by
          apply mul_le_mul_of_nonneg_left hfle (le_of_lt hB)
        nlinarith
      constructor
      · exact le_min (by nlinarith) hM
      · exact min_le_min hbetleB (le_refl M)
    · simp only [kelly_bet, kelly_fraction, hpc, lt_self_iff_false, if_false, gt_iff_lt,
        sub_self, mul_zero, if_false]
      norm_num
      exact ⟨le_of_lt hB, hM⟩
    · have hf : 0 < alpha * ((p - c) / (1 - c)) := by
        apply mul_pos ha0
        exact div_pos (by linarith) h1c
      have hbet : 0 < B * (alpha * ((p - c) / (1 - c))) := mul_pos hB hf
      simp only [kelly_bet, kelly_fraction, if_pos hpc, if_pos hbet]
      have hfrac : (p - c) / (1 - c) < 1 := by
        rw [div_lt_one h1c]; linarith
      have hfle : alpha * ((p - c) / (1 - c)) ≤ 1 := by
        calc alpha * ((p - c) / (1 - c)) ≤ 1 * ((p - c) / (1 - c)) := by
              apply mul_le_mul_of_nonneg_right ha1 (le_of_lt (div_pos (by linarith) h1c))
          _ = (p - c) / (1 - c) := one_mul _
          _ ≤ 1 := le_of_lt hfrac
      have hbetleB : B * (alpha * ((p - c) / (1 - c))) ≤ B := by
        have : B * (alpha * ((p - c) / (1 - c))) ≤ B * 1 := by
          apply mul_le_mul_of_nonneg_left hfle (le_of_lt hB)
        linarith
      constructor
      · exact le_min (le_of_lt hbet) hM
      · exact min_le_min hbetleB (le_refl M)

/-- C1 (witness): the amended theorem applied at the spec's worked example
`p = 0.6, c = 0.4, alpha = 1, B = 1000, M = 100`, whose amount is
`min 1000/3 100 = 100` on side YES. -/
theorem kelly_bet_spec_witness :
    kelly_bet (3/5) (2/5) 1 1000 100 = (min ((1:ℚ) * 1000 * ((3/5 - 2/5) / (1 - 2/5))) 100, "YES") :=
  (kelly_bet_spec (3/5) (2/5) 1 1000 100 (by norm_num) (by norm_num) (by norm_num)
    (by norm_num) (by norm_num) (le_refl 1) (by norm_num) (by norm_num)).2.1 (by norm_num)

end ManifoldBot

namespace ManifoldBot

/-! ## Helper lemmas about `subscribe_to_topics` -/

/-- Subscribing a list of topics that are all already subscribed filters
every one of them out and leaves the set untouched. -/
theorem processTopics_subscribe_noop :
    ∀ (ts : List String) (subs : Finset String),
      (∀ t ∈ ts, t ∈ subs) → processTopics false ts subs = ([], subs) := by
  intro ts
  induction ts with
  | nil => intro subs _; rfl
  | cons t ts ih =>
    intro subs h
    have ht : t ∈ subs := h t (List.mem_cons_self t ts)
    have step : processTopics false (t :: ts) subs = processTopics false ts subs := by
      simp [processTopics, ht]
    rw [step]
    exact ih subs (fun x hx => h x (List.mem_cons_of_mem t hx))

/-- Unsubscribing a list of topics none of which is subscribed filters
every one of them out and leaves the set untouched. -/
theorem processTopics_unsubscribe_noop :
    ∀ (ts : List String) (subs : Finset String),
      (∀ t ∈ ts, t ∉ subs) → processTopics true ts subs = ([], subs) := by
  intro ts
  induction ts with
  | nil => intro subs _; rfl
  | cons t ts ih =>
    intro subs h
    have ht : t ∉ subs := h t (List.mem_cons_self t ts)
    have step : processTopics true (t :: ts) subs = processTopics true ts subs := by
      simp [processTopics, ht]
    rw [step]
    exact ih subs (fun x hx => h x (List.mem_cons_of_mem t hx))

/-- `subscribe_to_topics` never touches the database. -/
theorem subscribe_to_topics_db (ts : List String) (u : Bool) (s : BotState) :
    (subscribe_to_topics ts u s).db = s.db := by
  unfold subscribe_to_topics
  by_cases hc : s.connected
  · by_cases he : (processTopics u ts s.subscribed_topics).1.isEmpty <;> simp [hc, he]
  · simp [hc]

/-- `subscribe_to_topics` never touches the sell-call log. -/
theorem subscribe_to_topics_sellCalls (ts : List String) (u : Bool) (s : BotState) :
    (subscribe_to_topics ts u s).sellCalls = s.sellCalls := by
  unfold subscribe_to_topics
  by_cases hc : s.connected
  · by_cases he : (processTopics u ts s.subscribed_topics).1.isEmpty <;> simp [hc, he]
  · simp [hc]

/-- After unsubscribing a single topic on an open connection, that topic
is not in the subscription set (it is either erased, or was absent and got
filtered out). -/
theorem unsubscribe_single_not_mem (s : BotState) (tp : String)
    (hc : s.connected = true) :
    tp ∉ (subscribe_to_topics [tp] true s).subscribed_topics := by
  simp only [subscribe_to_topics, hc, if_true]
  by_cases h : tp ∈ s.subscribed_topics
  · simp [processTopics, h]
  · simp [processTopics, h]

/-- C4: while the connection is open, subscribing with topics all already
in the subscription set sends no wire message and leaves the state (set,
txid, send log) unchanged, and unsubscribing with topics none of which is
in the set likewise leaves the state unchanged. -/
theorem subscribe_idempotent (s : BotState) (ts : List String)
    (hc : s.connected = true) :
    ((∀ t ∈ ts, t ∈ s.subscribed_topics) → subscribe_to_topics ts false s = s) ∧
    ((∀ t ∈ ts, t ∉ s.subscribed_topics) → subscribe_to_topics ts true s = s) := by
  rcases s with ⟨subs, txid, sent, conn, db, sells⟩
  simp only at hc
  subst hc
  constructor
  · intro h
    simp only at h
    simp only [subscribe_to_topics, if_true,
      processTopics_subscribe_noop ts subs h, List.isEmpty_nil]
  · intro h
    simp only at h
    simp only [subscribe_to_topics, if_true,
      processTopics_unsubscribe_noop ts subs h, List.isEmpty_nil]

/-- C4 (witness): a concrete open state subscribed to exactly the topic
"a": re-subscribing "a" and unsubscribing the absent "b" are both no-ops. -/
theorem subscribe_idempotent_witness :
    subscribe_to_topics ["a"] false
        ⟨{"a"}, 5, [], true, [], []⟩ = ⟨{"a"}, 5, [], true, [], []⟩ ∧
    subscribe_to_topics ["b"] true
        ⟨{"a"}, 5, [], true, [], []⟩ = ⟨{"a"}, 5, [], true, [], []⟩ :=
  ⟨(subscribe_idempotent ⟨{"a"}, 5, [], true, [], []⟩ ["a"] rfl).1 (by decide),
   (subscribe_idempotent ⟨{"a"}, 5, [], true, [], []⟩ ["b"] rfl).2 (by decide)⟩

end ManifoldBot

namespace ManifoldBot

/-! ## Theorems for the exit monitor -/

/-- Removing a market id makes `get_position` return absent for it. -/
theorem get_position_remove (db : List SavedPosition) (mid : String) :
    get_position (remove_position db mid) mid = none := by
  rw [get_position, List.find?_eq_none]
  intro x hx
  rw [remove_position, List.mem_filter] at hx
  simpa using hx.2

/-- C2: on a new-bet event for a market whose position has positive shares,
with a configured threshold and a probability fetch returning `prob`:
exactly one sell call is posted iff the payout fraction for the held side
reaches the threshold; the position is removed and the bet topic
unsubscribed exactly when that sell reports status 200; a failed sell
leaves database, subscription set and send log unchanged; below the
threshold the state is untouched. -/
theorem handle_new_bet_liquidation (s : BotState) (mid : String)
    (pos : SavedPosition) (threshold prob : ℚ) (status : ℕ)
    (hpos : get_position s.db mid = some pos) (hsh : 0 < pos.shares)
    (hc : s.connected = true) :
    ((handle_new_bet (some threshold) (some prob) status mid s).sellCalls =
      if threshold ≤ (if pos.outcome == "YES" then prob else 1 - prob)
      then s.sellCalls ++ [mid] else s.sellCalls) ∧
    (threshold ≤ (if pos.outcome == "YES" then prob else 1 - prob) → status = 200 →
      get_position (handle_new_bet (some threshold) (some prob) status mid s).db mid = none ∧
      ("contract/" ++ mid ++ "/new-bet") ∉
        (handle_new_bet (some threshold) (some prob) status mid s).subscribed_topics) ∧
    (threshold ≤ (if pos.outcome == "YES" then prob else 1 - prob) → status ≠ 200 →
      (handle_new_bet (some threshold) (some prob) status mid s).db = s.db ∧
      (handle_new_bet (some threshold) (some prob) status mid s).subscribed_topics =
        s.subscribed_topics ∧
      (handle_new_bet (some threshold) (some prob) status mid s).sent = s.sent) ∧
    ((if pos.outcome == "YES" then prob else 1 - prob) < threshold →
      handle_new_bet (some threshold) (some prob) status mid s = s) := by
  have hunfold : handle_new_bet (some threshold) (some prob) status mid s =
      (if (if pos.outcome == "YES" then prob else 1 - prob) ≥ threshold then
        let s1 := { s with sellCalls := s.sellCalls ++ [mid] }
        if status == 200 then
          let s2 := { s1 with db := remove_position s1.db mid }
          subscribe_to_topics ["contract/" ++ mid ++ "/new-bet"] true s2
        else s1
      else s) := by
    rw [handle_new_bet, hpos]
    simp only [Option.getD_some, if_pos hsh]
  by_cases hpay : threshold ≤ (if pos.outcome == "YES" then prob else 1 - prob)
  · refine ⟨?_, ?_, ?_, ?_⟩
    · have hpay2 : threshold ≤ if pos.outcome = "YES" then prob else 1 - prob := by
        simpa using hpay
      rw [hunfold, if_pos hpay]
      by_cases hst : status == 200
      · simp [hst, subscribe_to_topics_sellCalls, hpay2]
      · simp [hst, hpay2]
    · intro _ hst
      have hst2 : (status == 200) = true := by simpa using hst
      rw [hunfold, if_pos hpay]
      simp only [hst2, if_true]
      constructor
      · rw [subscribe_to_topics_db]
        exact get_position_remove s.db mid
      · exact unsubscribe_single_not_mem _ _ hc
    · intro _ hst
      have hst2 : (status == 200) = false := by simpa using hst
      rw [hunfold, if_pos hpay]
      simp only [hst2, if_false]
      exact ⟨rfl, rfl, rfl⟩
    · intro hlt
      exact absurd hpay (not_le.mpr hlt)
  · have hlt := not_le.mp hpay
    refine ⟨?_, ?_, ?_, ?_⟩
    · rw [hunfold, if_neg (not_le.mpr hlt), if_neg hpay]
    · intro hle; exact absurd hle hpay
    · intro hle; exact absurd hle hpay
    · intro _
      rw [hunfold, if_neg (not_le.mpr hlt)]

/-- C2 (witness): a YES position with threshold 0.9 and a fetch returning
0.92 triggers exactly one sell call (the spec's liquidation example),
applied at a concrete open state holding one share of market "m1". -/
theorem handle_new_bet_liquidation_witness :
    (handle_new_bet (some (9/10)) (some (92/100)) 200 "m1"
        ⟨∅, 0, [], true, [⟨"m1", "YES", 1, 0, 0⟩], []⟩).sellCalls =
      if (9/10 : ℚ) ≤ (if ("YES" == "YES") then (92/100 : ℚ) else 1 - 92/100)
      then ([] : List String) ++ ["m1"] else [] :=
  (handle_new_bet_liquidation ⟨∅, 0, [], true, [⟨"m1", "YES", 1, 0, 0⟩], []⟩
    "m1" ⟨"m1", "YES", 1, 0, 0⟩ (9/10) (92/100) 200 rfl (by norm_num) rfl).1

end ManifoldBot

namespace ManifoldBot

/-! ## Theorems for the missing-"prob" response -/

/-- C10 (counterexample): the claim says a held YES position is *never*
sold on a response without a "prob" field; but with a configured threshold
of 0 (which the code treats as configured, since only `None` is filtered
out), the defaulted probability 0 gives payout fraction 0 ≥ 0 and the sell
is posted: a concrete open state holding one YES share of "m1" ends up
with exactly one sell call. -/
theorem missing_prob_yes_sold_at_zero_threshold :
    (handle_new_bet (some 0) none 200 "m1"
        ⟨∅, 0, [], true, [⟨"m1", "YES", 1, 0, 0⟩], []⟩).sellCalls = ["m1"] := by
  decide

/-- C10 (amended): when the probability fetch response has no "prob" field
the exit monitor uses 0 as the probability; consequently a held YES
position is never sold on such a response *provided the configured
threshold is positive* (a threshold ≤ 0 is met by the defaulted payout 0),
while a held NO position's payout fraction is computed as 1, so a sell is
submitted whenever the configured threshold is ≤ 1. -/
theorem handle_new_bet_missing_prob (s : BotState) (mid : String)
    (pos : SavedPosition) (threshold : ℚ) (status : ℕ)
    (hpos : get_position s.db mid = some pos) (hsh : 0 < pos.shares) :
    (pos.outcome = "YES" → 0 < threshold →
      handle_new_bet (some threshold) none status mid s = s) ∧
    (pos.outcome = "NO" → threshold ≤ 1 →
      (handle_new_bet (some threshold) none status mid s).sellCalls =
        s.sellCalls ++ [mid]) := by
  constructor
  · intro hyes ht
    rw [handle_new_bet, hpos]
    have hbeq : (pos.outcome == "YES") = true := by simp [hyes]
    simp only [Option.getD_none, if_pos hsh, hbeq, if_true]
    rw [if_neg]
    exact not_le.mpr ht
  · intro hno ht
    rw [handle_new_bet, hpos]
    have hbeq : (pos.outcome == "YES") = false := by simp [hno]
    simp only [Option.getD_none, if_pos hsh, hbeq, Bool.false_eq_true, if_false]
    have hpay : (1 : ℚ) - 0 ≥ threshold := by linarith
    rw [if_pos hpay]
    by_cases hst : status == 200
    · simp [hst, subscribe_to_topics_sellCalls]
    · simp [hst]

/-- C10 (witness): the amended theorem at concrete states: a YES position
with threshold 1/2 and a missing "prob" field leaves the state untouched,
and a NO position with threshold 1/2 gets exactly one sell call. -/
theorem handle_new_bet_missing_prob_witness :
    handle_new_bet (some (1/2)) none 200 "m1"
        ⟨∅, 0, [], true, [⟨"m1", "YES", 1, 0, 0⟩], []⟩ =
      ⟨∅, 0, [], true, [⟨"m1", "YES", 1, 0, 0⟩], []⟩ ∧
    (handle_new_bet (some (1/2)) none 200 "m2"
        ⟨∅, 0, [], true, [⟨"m2", "NO", 1, 0, 0⟩], []⟩).sellCalls = [] ++ ["m2"] :=
  ⟨(handle_new_bet_missing_prob ⟨∅, 0, [], true, [⟨"m1", "YES", 1, 0, 0⟩], []⟩
      "m1" ⟨"m1", "YES", 1, 0, 0⟩ (1/2) 200 rfl (by norm_num)).1 rfl (by norm_num),
   (handle_new_bet_missing_prob ⟨∅, 0, [], true, [⟨"m2", "NO", 1, 0, 0⟩], []⟩
      "m2" ⟨"m2", "NO", 1, 0, 0⟩ (1/2) 200 rfl (by norm_num)).2 rfl (by norm_num)⟩

end ManifoldBot

namespace ManifoldBot

/-! ## Theorems for the trade decision pipeline -/

/-- C5: for a processed new-market event (binary market passing
`can_trade`), a limit order is submitted iff the computed stake is
strictly positive, and any submitted order carries limit probability
`0.01` when the oracle's estimate was exactly 0 (and the estimate itself
otherwise). -/
theorem trade_on_market_gating (cfg : BotConfig) (market : FullMarket)
    (bankroll estimate betShares : ℚ) (betCreatedTime now : ℤ) (s : BotState)
    (hbin : market.outcomeType = "BINARY")
    (htr : can_trade cfg market bankroll = true) :
    ((trade_on_market cfg market bankroll estimate betShares betCreatedTime now s).2.isSome ↔
      0 < (kelly_bet estimate market.probability cfg.kelly_alpha bankroll
        cfg.max_trade_amount).1) ∧
    (∀ ord, (trade_on_market cfg market bankroll estimate betShares betCreatedTime now s).2 =
        some ord →
      ord.limitProb = if estimate = 0 then 1/100 else estimate) := by
  have hbeq : (market.outcomeType == "BINARY") = true := by simp [hbin]
  rw [trade_on_market]
  simp only [hbeq, htr, Bool.not_true, Bool.false_eq_true, if_false]
  by_cases hbet : 0 < (kelly_bet estimate market.probability cfg.kelly_alpha bankroll
      cfg.max_trade_amount).1
  · simp only [if_pos hbet]
    constructor
    · simpa using hbet
    · intro ord hord
      have : ord = ⟨market.id, if estimate == 0 then (1/100 : ℚ) else estimate,
          (kelly_bet estimate market.probability cfg.kelly_alpha bankroll
            cfg.max_trade_amount).1,
          (kelly_bet estimate market.probability cfg.kelly_alpha bankroll
            cfg.max_trade_amount).2,
          cfg.expires_millis_after, cfg.dry_run⟩ := by
        exact (Option.some_inj.mp hord).symm
      rw [this]
      by_cases h0 : estimate = 0 <;> simp [h0]
  · simp only [if_neg hbet]
    constructor
    · simp [hbet]
    · intro ord hord
      exact absurd hord (by simp)

/-- C5 (witness): the gating theorem at a concrete event: a binary market
at probability 1/2 with oracle estimate 0, alpha 1, bankroll 1000, cap
100 computes a positive NO stake (min 1000 100 = 100), so an order is
submitted iff that stake is positive. -/
theorem trade_on_market_gating_witness :
    (trade_on_market ⟨[], 100, 1, none, false, none⟩ ⟨"m1", "BINARY", 1/2, []⟩
        1000 0 7 0 0 (initState [])).2.isSome ↔
      0 < (kelly_bet 0 (1/2) 1 1000 100).1 :=
  (trade_on_market_gating ⟨[], 100, 1, none, false, none⟩ ⟨"m1", "BINARY", 1/2, []⟩
    1000 0 7 0 0 (initState []) rfl (by decide)).1

end ManifoldBot

namespace ManifoldBot

/-! ## Theorems for bot construction -/

/-- C9: constructing a `Bot` with `db_path` absent (`None`) raises — the
unconditional `self.db.init_db()` call hits the `None` handle — so a bot
can only ever be constructed successfully when a database path was
supplied. -/
theorem bot_init_requires_db_path :
    (∃ msg, bot_init_db none = Except.error msg) ∧
    (∀ p d, bot_init_db p = Except.ok d → p ≠ none) := by
  constructor
  · exact ⟨_, rfl⟩
  · intro p d h hnone
    subst hnone
    simp [bot_init_db] at h

/-- C9 (witness): the theorem applied at the concrete path
"market_positions.db" (the source's default), which constructs
successfully and is indeed not `None`. -/
theorem bot_init_requires_db_path_witness :
    some "market_positions.db" ≠ none :=
  bot_init_requires_db_path.2 (some "market_positions.db")
    ⟨"market_positions.db"⟩ (by simp [bot_init_db])

end ManifoldBot

namespace ManifoldBot

/-! ## Theorems for the position store -/

/-- Upserting when some row already has the key replaces that row, so a
lookup finds the new row. -/
theorem find?_map_replace (mid : String) (row : SavedPosition)
    (hrow : (row.market_id == mid) = true) :
    ∀ db : List SavedPosition, db.any (fun p => p.market_id == mid) = true →
      (db.map (fun p => if p.market_id == mid then row else p)).find?
        (fun p => p.market_id == mid) = some row := by
  intro db
  induction db with
  | nil => intro h; simp at h
  | cons p rest ih =>
    intro h
    by_cases hp : (p.market_id == mid) = true
    · simp [List.find?, hp, hrow]
    · have hp2 : (p.market_id == mid) = false := by simpa using hp
      have hrest : rest.any (fun q => q.market_id == mid) = true := by
        simpa [hp2] using h
      simp only [List.map_cons, hp2, Bool.false_eq_true, if_false, List.find?, hp2]
      exact ih hrest

/-- Appending a fresh row to a database whose rows all miss the key makes
a lookup find the appended row. -/
theorem find?_append_fresh (mid : String) (row : SavedPosition)
    (hrow : (row.market_id == mid) = true) :
    ∀ db : List SavedPosition, db.any (fun p => p.market_id == mid) = false →
      (db ++ [row]).find? (fun p => p.market_id == mid) = some row := by
  intro db
  induction db with
  | nil => simp [List.find?, hrow]
  | cons p rest ih =>
    intro h
    have hp : (p.market_id == mid) = false := by
      rcases List.any_eq_false.mp h p (List.mem_cons_self p rest) with h2
      simpa using h2
    have hrest : rest.any (fun q => q.market_id == mid) = false := by
      refine List.any_eq_false.mpr ?_
      intro q hq
      exact List.any_eq_false.mp h q (List.mem_cons_of_mem p hq)
    simp only [List.cons_append, List.find?, hp]
    exact ih hrest

/-- Keys of a batch of upserts on fresh, mutually distinct keys: each
upsert appends. -/
theorem apply_upserts_keys :
    ∀ (reqs : List UpsertReq) (db : List SavedPosition),
      (db.map SavedPosition.market_id ++ reqs.map UpsertReq.market_id).Nodup →
      (apply_upserts db reqs).map SavedPosition.market_id =
        db.map SavedPosition.market_id ++ reqs.map UpsertReq.market_id := by
  intro reqs
  induction reqs with
  | nil => intro db _; simp [apply_upserts]
  | cons r rest ih =>
    intro db h
    have hdisj : (db.map SavedPosition.market_id).Disjoint
        (r.market_id :: rest.map UpsertReq.market_id) :=
      (List.nodup_append.mp (by simpa using h)).2.2
    have hfresh : r.market_id ∉ db.map SavedPosition.market_id := by
      intro hmem
      exact hdisj hmem (List.mem_cons_self _ _)
    have hany : db.any (fun p => p.market_id == r.market_id) = false := by
      refine List.any_eq_false.mpr ?_
      intro p hp hbeq
      have hpm : p.market_id = r.market_id := by simpa using hbeq
      exact hfresh (hpm ▸ List.mem_map_of_mem SavedPosition.market_id hp)
    have hstep : apply_upserts db (r :: rest) =
        apply_upserts (db ++ [⟨r.market_id, r.outcome, r.shares, r.last_bet_time, r.now⟩]) rest := by
      simp only [apply_upserts, List.foldl_cons, add_position_limited, hany,
        Bool.false_eq_true, if_false]
    rw [hstep]
    have hkeys : (db ++ [(⟨r.market_id, r.outcome, r.shares, r.last_bet_time, r.now⟩ :
        SavedPosition)]).map SavedPosition.market_id =
        db.map SavedPosition.market_id ++ [r.market_id] := by simp
    have h2 : ((db ++ [(⟨r.market_id, r.outcome, r.shares, r.last_bet_time, r.now⟩ :
        SavedPosition)]).map SavedPosition.market_id ++ rest.map UpsertReq.market_id).Nodup := by
      rw [hkeys, List.append_assoc]
      simpa using h
    rw [ih _ h2, hkeys, List.append_assoc]
    rfl

/-- C8: position-store round trip.  (i) `upsert` then `get` on the same
market id returns exactly the upserted side/shares/times, whether or not
a row for that id already existed (last write wins); (ii) `remove` then
`get` returns absent; (iii) applying N upserts with distinct market ids
to the empty store yields exactly N rows. -/
theorem position_store_roundtrip :
    (∀ (db : List SavedPosition) (mid outcome : String) (shares : ℚ)
        (last_bet_time now : ℤ),
      get_position (add_position_limited db mid outcome shares last_bet_time now) mid =
        some ⟨mid, outcome, shares, last_bet_time, now⟩) ∧
    (∀ (db : List SavedPosition) (mid : String),
      get_position (remove_position db mid) mid = none) ∧
    (∀ reqs : List UpsertReq, (reqs.map UpsertReq.market_id).Nodup →
      (apply_upserts [] reqs).length = reqs.length) := by
  refine ⟨?_, ?_, ?_⟩
  · intro db mid outcome shares last_bet_time now
    have hrow : ((⟨mid, outcome, shares, last_bet_time, now⟩ :
        SavedPosition).market_id == mid) = true := by simp
    rw [get_position, add_position_limited]
    by_cases h : db.any (fun p => p.market_id == mid)
    · simp only [h, if_true]
      exact find?_map_replace mid _ hrow db h
    · have h2 : db.any (fun p => p.market_id == mid) = false := by simpa using h
      simp only [h2, Bool.false_eq_true, if_false]
      exact find?_append_fresh mid _ hrow db h2
  · exact get_position_remove
  · intro reqs h
    have := apply_upserts_keys reqs [] (by simpa using h)
    calc (apply_upserts [] reqs).length
        = ((apply_upserts [] reqs).map SavedPosition.market_id).length :=
          (List.length_map _ _).symm
      _ = (([] : List SavedPosition).map SavedPosition.market_id ++
            reqs.map UpsertReq.market_id).length := by rw [this]
      _ = reqs.length := by simp

/-- C8 (witness): the round trip at concrete data: upsert then get returns
the row; remove then get is absent; two upserts on the distinct ids "m1",
"m2" give a store of exactly 2 rows. -/
theorem position_store_roundtrip_witness :
    get_position (add_position_limited [] "m1" "YES" 5 10 20) "m1" =
      some ⟨"m1", "YES", 5, 10, 20⟩ ∧
    get_position (remove_position [⟨"m1", "YES", 5, 10, 20⟩] "m1") "m1" = none ∧
    (apply_upserts [] [⟨"m1", "YES", 5, 10, 20⟩, ⟨"m2", "NO", 3, 11, 21⟩]).length = 2 :=
  ⟨position_store_roundtrip.1 [] "m1" "YES" 5 10 20,
   position_store_roundtrip.2.1 [⟨"m1", "YES", 5, 10, 20⟩] "m1",
   position_store_roundtrip.2.2 [⟨"m1", "YES", 5, 10, 20⟩, ⟨"m2", "NO", 3, 11, 21⟩]
     (by decide)⟩

end ManifoldBot

namespace ManifoldBot

/-! ## Theorems for reconnection -/

/-- When every attempt fails, the loop runs to exhaustion: the run flag is
cleared, the counter ends at the bound, and one delay was slept per
remaining attempt. -/
theorem reconnect_go_allfail (success : ℕ → Bool) (jitter : ℕ → ℚ) (base : ℚ)
    (maxA : ℕ) (hfail : ∀ n, success n = false) :
    ∀ remaining,
      (reconnect_go success jitter base maxA remaining).is_running = false ∧
      (reconnect_go success jitter base maxA remaining).reconnect_attempts = maxA ∧
      (reconnect_go success jitter base maxA remaining).delays.length = remaining := by
  intro remaining
  induction remaining with
  | zero => exact ⟨rfl, rfl, rfl⟩
  | succ r ih =>
    simp only [reconnect_go, hfail, Bool.false_eq_true, if_false, List.length_cons]
    exact ⟨ih.1, ih.2.1, by rw [ih.2.2]⟩

/-- When every attempt fails, the `i`-th delay slept is the jittered
backoff delay of attempt number `(maxA - remaining) + 1 + i`. -/
theorem reconnect_go_allfail_get (success : ℕ → Bool) (jitter : ℕ → ℚ) (base : ℚ)
    (maxA : ℕ) (hfail : ∀ n, success n = false) :
    ∀ remaining, remaining ≤ maxA → ∀ i, i < remaining →
      (reconnect_go success jitter base maxA remaining).delays.get? i =
        some (attempt_total_delay base jitter (maxA - remaining + 1 + i)) := by
  intro remaining
  induction remaining with
  | zero => intro _ i hi; omega
  | succ r ih =>
    intro hle i hi
    simp only [reconnect_go, hfail, Bool.false_eq_true, if_false]
    match i with
    | 0 => rfl
    | i + 1 =>
      have := ih (by omega) i (by omega)
      simp only [List.get?_cons_succ, this]
      have harith : maxA - r + 1 + i = maxA - (r + 1) + 1 + (i + 1) := by omega
      rw [harith]

/-- When the first success comes at attempt `k`, the loop stops there with
the counter reset to zero and `k` attempts issued (counting from the
current counter value `maxA - remaining`). -/
theorem reconnect_go_first_success (success : ℕ → Bool) (jitter : ℕ → ℚ) (base : ℚ)
    (maxA k : ℕ) (hbefore : ∀ i, i < k → success i = false)
    (hat : success k = true) :
    ∀ remaining, remaining ≤ maxA → maxA - remaining < k → k ≤ maxA →
      (reconnect_go success jitter base maxA remaining).is_running = true ∧
      (reconnect_go success jitter base maxA remaining).reconnect_attempts = 0 ∧
      (reconnect_go success jitter base maxA remaining).delays.length =
        k - (maxA - remaining) := by
  intro remaining
  induction remaining with
  | zero => intro _ h1 h2; omega
  | succ r ih =>
    intro hle h1 h2
    by_cases ha : maxA - (r + 1) + 1 = k
    · simp only [reconnect_go, ha, hat, if_true]
      exact ⟨by trivial, by trivial, by simp; omega⟩
    · have hlt : maxA - (r + 1) + 1 < k := by omega
      have hf : success (maxA - (r + 1) + 1) = false := hbefore _ hlt
      simp only [reconnect_go, hf, Bool.false_eq_true, if_false, List.length_cons]
      have := ih (by omega) (by omega) h2
      exact ⟨this.1, this.2.1, by rw [this.2.2]; omega⟩

/-- C3: reconnection bound.  With every attempt failing, entering
`attempt_reconnection` with a fresh counter makes exactly
`max_reconnect_attempts = 10` attempts, ends with `is_running = False`
(the run loop stops) and the counter at the bound; once `is_running` is
false, a further close event starts no reconnect sequence (no further
attempts); and when some attempt `k ≤ 10` is the first to succeed, the
sequence stops after `k` attempts with the counter reset to zero and the
bot still running. -/
theorem reconnection_bound (jitter : ℕ → ℚ) (fails succ_at_k : ℕ → Bool)
    (hfail : ∀ n, fails n = false) (k : ℕ) (hk1 : 1 ≤ k) (hk : k ≤ 10)
    (hbefore : ∀ i, i < k → succ_at_k i = false) (hat : succ_at_k k = true) :
    ((attempt_reconnection fails jitter 10 10 0).is_running = false ∧
     (attempt_reconnection fails jitter 10 10 0).reconnect_attempts = 10 ∧
     (attempt_reconnection fails jitter 10 10 0).delays.length = 10) ∧
    (∀ a : ℕ, on_close_reconnect fails jitter 10 10 false false a =
      ⟨false, a, []⟩) ∧
    ((attempt_reconnection succ_at_k jitter 10 10 0).is_running = true ∧
     (attempt_reconnection succ_at_k jitter 10 10 0).reconnect_attempts = 0 ∧
     (attempt_reconnection succ_at_k jitter 10 10 0).delays.length = k) := by
  refine ⟨?_, ?_, ?_⟩
  · have h : attempt_reconnection fails jitter 10 10 0 =
        reconnect_go fails jitter 10 10 10 := by
      simp [attempt_reconnection]
    rw [h]
    exact reconnect_go_allfail fails jitter 10 10 hfail 10
  · intro a; rfl
  · have h : attempt_reconnection succ_at_k jitter 10 10 0 =
        reconnect_go succ_at_k jitter 10 10 10 := by
      simp [attempt_reconnection]
    rw [h]
    have := reconnect_go_first_success succ_at_k jitter 10 10 k hbefore hat 10
      (le_refl 10) (by omega) hk
    exact ⟨this.1, this.2.1, by rw [this.2.2]; omega⟩

/-- C3 (witness): the bound theorem at the concrete oracles "every attempt
fails" and "exactly attempt 1 succeeds" with jitter draw 1/5. -/
theorem reconnection_bound_witness :
    (attempt_reconnection (fun _ => false) (fun _ => 1/5) 10 10 0).is_running = false ∧
    (attempt_reconnection (fun n => n == 1) (fun _ => 1/5) 10 10 0).reconnect_attempts = 0 :=
  ⟨(reconnection_bound (fun _ => 1/5) (fun _ => false) (fun n => n == 1)
      (fun _ => rfl) 1 (le_refl 1) (by norm_num) (by decide) (by decide)).1.1,
   (reconnection_bound (fun _ => 1/5) (fun _ => false) (fun n => n == 1)
      (fun _ => rfl) 1 (le_refl 1) (by norm_num) (by decide) (by decide)).2.2.2.1⟩

/-- C7: backoff schedule.  In an all-failing reconnect sequence started
with a fresh counter, the delay slept before the `n`-th attempt
(`1 ≤ n ≤ 10`) is `min (10 * 2^(n-1)) 300` plus `jitter n` times that
delay; the un-jittered delay never exceeds 300; and when the uniform draw
lies in `[0.1, 0.3]` the additive jitter lies between 10% and 30% of the
un-jittered delay. -/
theorem reconnect_backoff_schedule (success : ℕ → Bool) (jitter : ℕ → ℚ) (n : ℕ)
    (hfail : ∀ m, success m = false)
    (hj : ∀ m, 1/10 ≤ jitter m ∧ jitter m ≤ 3/10)
    (hn1 : 1 ≤ n) (hn : n ≤ 10) :
    (attempt_reconnection success jitter 10 10 0).delays.get? (n - 1) =
      some (min (10 * 2 ^ (n - 1)) 300 + jitter n * min (10 * 2 ^ (n - 1)) 300) ∧
    min ((10:ℚ) * 2 ^ (n - 1)) 300 ≤ 300 ∧
    (1/10) * min ((10:ℚ) * 2 ^ (n - 1)) 300 ≤ jitter n * min ((10:ℚ) * 2 ^ (n - 1)) 300 ∧
    jitter n * min ((10:ℚ) * 2 ^ (n - 1)) 300 ≤ (3/10) * min ((10:ℚ) * 2 ^ (n - 1)) 300 := by
  have hd0 : (0:ℚ) ≤ min ((10:ℚ) * 2 ^ (n - 1)) 300 := by
    apply le_min
    · positivity
    · norm_num
  refine ⟨?_, min_le_right _ _, ?_, ?_⟩
  · have h : attempt_reconnection success jitter 10 10 0 =
        reconnect_go success jitter 10 10 10 := by
      simp [attempt_reconnection]
    rw [h, reconnect_go_allfail_get success jitter 10 10 hfail 10 (le_refl 10)
      (n - 1) (by omega)]
    have harith : 10 - 10 + 1 + (n - 1) = n := by omega
    rw [harith, attempt_total_delay, reconnect_delay]
  · exact mul_le_mul_of_nonneg_right (hj n).1 hd0
  · exact mul_le_mul_of_nonneg_right (hj n).2 hd0

/-- C7 (witness): the schedule theorem at attempt `n = 5` with jitter draw
1/5: the slept delay is `min (10*2^4) 300 = 160` plus `1/5 * 160 = 32`. -/
theorem reconnect_backoff_schedule_witness :
    (attempt_reconnection (fun _ => false) (fun _ => 1/5) 10 10 0).delays.get? (5 - 1) =
      some (min (10 * 2 ^ (5 - 1)) 300 + (1/5 : ℚ) * min (10 * 2 ^ (5 - 1)) 300) :=
  (reconnect_backoff_schedule (fun _ => false) (fun _ => 1/5) 5 (fun _ => rfl)
    (fun _ => ⟨by norm_num, by norm_num⟩) (by norm_num) (by norm_num)).1

end ManifoldBot

namespace ManifoldBot

/-! ## Theorems for transaction ids -/

/-- Appending a message carrying the current counter to a send log
satisfying the invariant preserves it for the incremented counter. -/
theorem sent_log_extend (sent : List WireMsg) (txid : ℕ) (msg : WireMsg)
    (hmsg : msg.txid = txid)
    (h1 : (sent.map WireMsg.txid).Pairwise (· < ·))
    (h2 : ∀ m ∈ sent, m.txid < txid) :
    ((sent ++ [msg]).map WireMsg.txid).Pairwise (· < ·) ∧
    ∀ m ∈ sent ++ [msg], m.txid < txid + 1 := by
  constructor
  · rw [List.map_append, List.pairwise_append]
    refine ⟨h1, by simp, ?_⟩
    intro a ha b hb
    simp only [List.map_cons, List.map_nil, List.mem_singleton] at hb
    rcases List.mem_map.mp ha with ⟨m, hm, rfl⟩
    rw [hb, hmsg]
    exact h2 m hm
  · intro m hm
    rcases List.mem_append.mp hm with hm | hm
    · exact Nat.lt_succ_of_lt (h2 m hm)
    · rw [List.mem_singleton.mp hm, hmsg]
      exact Nat.lt_succ_self txid

/-- `subscribe_to_topics` preserves the send-log invariant. -/
theorem subscribe_preserves_sentInv (ts : List String) (u : Bool) (s : BotState)
    (h : SentInv s) : SentInv (subscribe_to_topics ts u s) := by
  unfold subscribe_to_topics
  by_cases hc : s.connected
  · by_cases he : (processTopics u ts s.subscribed_topics).1.isEmpty
    · simp only [hc, if_true, he]
      exact h
    · simp only [hc, if_true, he, Bool.false_eq_true, if_false]
      exact sent_log_extend s.sent s.txid _ rfl h.1 h.2
  · simp only [hc]
    simpa using h

/-- A ping-thread iteration preserves the send-log invariant. -/
theorem ping_preserves_sentInv (s : BotState) (h : SentInv s) :
    SentInv (ping_once s) := by
  unfold ping_once
  by_cases hc : s.connected
  · simp only [hc, if_true]
    exact sent_log_extend s.sent s.txid _ rfl h.1 h.2
  · simp only [hc]
    simpa using h

/-- The startup resubscription fold of `get_my_positions` preserves the
send-log invariant. -/
theorem resubscribe_fold_preserves_sentInv (l : List SavedPosition) :
    ∀ s : BotState, SentInv s →
      SentInv (l.foldl
        (fun st p => subscribe_to_topics ["contract/" ++ p.market_id ++ "/new-bet"] false st)
        s) := by
  induction l with
  | nil => intro s h; exact h
  | cons p rest ih =>
    intro s h
    exact ih _ (subscribe_preserves_sentInv _ _ _ h)

/-- `on_open` preserves the send-log invariant. -/
theorem on_open_preserves_sentInv (s : BotState) (h : SentInv s) :
    SentInv (on_open s) := by
  unfold on_open
  apply resubscribe_fold_preserves_sentInv
  apply subscribe_preserves_sentInv
  exact h

/-- `handle_new_bet` preserves the send-log invariant. -/
theorem handle_new_bet_preserves_sentInv (th fp : Option ℚ) (st : ℕ)
    (mid : String) (s : BotState) (h : SentInv s) :
    SentInv (handle_new_bet th fp st mid s) := by
  unfold handle_new_bet
  cases hget : get_position s.db mid with
  | none => exact h
  | some pos =>
    cases th with
    | none => exact h
    | some t =>
      dsimp only
      by_cases hsh : pos.shares > 0
      · rw [if_pos hsh]
        by_cases hpay : (if pos.outcome == "YES" then fp.getD 0 else 1 - fp.getD 0) ≥ t
        · rw [if_pos hpay]
          cases hst : st == 200 with
          | true =>
            simp only [if_true]
            exact subscribe_preserves_sentInv _ _ _ h
          | false =>
            simp only [Bool.false_eq_true, if_false]
            exact h
        · rw [if_neg hpay]
          exact h
      · rw [if_neg hsh]
        exact h

/-- `trade_on_market` preserves the send-log invariant. -/
theorem trade_preserves_sentInv (cfg : BotConfig) (m : FullMarket)
    (bank est sh : ℚ) (t now : ℤ) (s : BotState) (h : SentInv s) :
    SentInv (trade_on_market cfg m bank est sh t now s).1 := by
  unfold trade_on_market
  by_cases h1 : (m.outcomeType == "BINARY")
  · by_cases h2 : can_trade cfg m bank
    · simp only [h1, h2, Bool.not_true, Bool.false_eq_true, if_false]
      by_cases h3 : 0 < (kelly_bet est m.probability cfg.kelly_alpha bank
          cfg.max_trade_amount).1
      · rw [if_pos h3]
        exact subscribe_preserves_sentInv _ _ _ h
      · rw [if_neg h3]
        exact h
    · have h2f : can_trade cfg m bank = false := by simpa using h2
      simp only [h1, h2f, Bool.not_true, Bool.not_false, Bool.false_eq_true, if_false, if_true]
      exact h
  · have h1f : (m.outcomeType == "BINARY") = false := by simpa using h1
    simp only [h1f, Bool.not_false, if_true]
    exact h

/-- Every event other than close preserves the send-log invariant. -/
theorem step_preserves_sentInv (cfg : BotConfig) (s : BotState) (e : BotEv)
    (he : e ≠ BotEv.close) (h : SentInv s) : SentInv (step cfg s e) := by
  cases e with
  | sub ts => exact subscribe_preserves_sentInv ts false s h
  | unsub ts => exact subscribe_preserves_sentInv ts true s h
  | ping => exact ping_preserves_sentInv s h
  | close => exact absurd rfl he
  | wsopen => exact on_open_preserves_sentInv s h
  | newBet mid fp st => exact handle_new_bet_preserves_sentInv _ fp st mid s h
  | newMarket m bank est sh t now => exact trade_preserves_sentInv cfg m bank est sh t now s h

/-- A run containing no close event preserves the send-log invariant. -/
theorem run_preserves_sentInv (cfg : BotConfig) :
    ∀ (es : List BotEv) (s : BotState), SentInv s → BotEv.close ∉ es →
      SentInv (run cfg s es) := by
  intro es
  induction es with
  | nil => intro s h _; exact h
  | cons e rest ih =>
    intro s h hmem
    have he : e ≠ BotEv.close := fun heq => hmem (heq ▸ List.mem_cons_self e rest)
    have hrest : BotEv.close ∉ rest := fun hm => hmem (List.mem_cons_of_mem e hm)
    exact ih _ (step_preserves_sentInv cfg s e he h) hrest

/-- C6 (counterexample): the claim asserts txids of subscribe/unsubscribe
frames are strictly increasing over the whole lifetime of the instance;
but `on_close` resets `self.txid = 0`, so in the run open → close → open
the two subscribe frames (for `global/new-contract`) both carry txid 0,
which is not strictly increasing. -/
theorem txid_not_monotone_across_reconnect :
    ((run ⟨[], 100, 1, none, false, none⟩ (initState [])
        [BotEv.wsopen, BotEv.close, BotEv.wsopen]).sent.filter
      (fun m => m.mtype == "subscribe" || m.mtype == "unsubscribe")).map WireMsg.txid
      = [0, 0] ∧
    ¬ ([0, 0] : List ℕ).Pairwise (· < ·) := by
  constructor
  · rfl
  · decide

/-- C6 (amended): within a single connection (a run that contains no close
event, starting from a fresh instance), the txids carried by successive
subscribe/unsubscribe wire messages are strictly increasing; the counter
is reset to 0 by `on_close`, so the guarantee holds per connection, not
across reconnects. -/
theorem txid_monotone_within_connection (cfg : BotConfig) (db : List SavedPosition)
    (es : List BotEv) (h : BotEv.close ∉ es) :
    (((run cfg (initState db) es).sent.filter
        (fun m => m.mtype == "subscribe" || m.mtype == "unsubscribe")).map
      WireMsg.txid).Pairwise (· < ·) := by
  have hinv : SentInv (run cfg (initState db) es) := by
    apply run_preserves_sentInv cfg es (initState db) _ h
    constructor
    · simp [initState]
    · intro m hm
      simp [initState] at hm
  have hsub : (((run cfg (initState db) es).sent.filter
      (fun m => m.mtype == "subscribe" || m.mtype == "unsubscribe")).map
      WireMsg.txid).Sublist ((run cfg (initState db) es).sent.map WireMsg.txid) :=
    List.Sublist.map WireMsg.txid (List.filter_sublist _)
  exact List.Pairwise.sublist hsub hinv.1

/-- C6 (witness): the amended theorem at the concrete close-free run
open, subscribe ["a"]: the two subscribe frames carry txids 0 and 1. -/
theorem txid_monotone_within_connection_witness :
    (((run ⟨[], 100, 1, none, false, none⟩ (initState [])
        [BotEv.wsopen, BotEv.sub ["a"]]).sent.filter
      (fun m => m.mtype == "subscribe" || m.mtype == "unsubscribe")).map
      WireMsg.txid).Pairwise (· < ·) :=
  txid_monotone_within_connection ⟨[], 100, 1, none, false, none⟩ []
    [BotEv.wsopen, BotEv.sub ["a"]] (by decide)

end ManifoldBot
